import Mathlib

/-!
Verification development for the DMXP protobuf plugin (a Rust program).

The program parses a protobuf-like schema into an AST and converts AST
nodes into target-language spellings.  This file gives a shallow
embedding of the relevant Rust code:

* `src/parser/mod.rs`     — line classifier and literal extraction helpers
* `src/parser/parser.rs`  — the line-based recursive parser `ProtoParser`
* `src/ast/structs.rs`    — the AST data model
* `src/ast/ast.rs`        — the `AstBuilder`
* `src/templateGen/template_generator.rs` — Go type/label/name conversion

Modelling conventions:

* Rust `&str` values are modelled as `String`; byte indices of ASCII
  operations (`find`, slicing) are modelled as character indices, which
  agree on ASCII input.
* Rust `i32`/`u32` parsing is modelled on `Int`/`Nat` with the explicit
  range checks that `str::parse` performs.
* Fallible Rust functions returning `anyhow::Result` are modelled with
  `Except String`; the error payload is the formatted message where a
  claim depends on it.
* The imperative parser loops over `self.lines` with a `current_line`
  cursor; we model this as recursion over the list of lines with an
  explicit index plus a fuel argument that makes the mutual recursion
  structurally terminating.  Running out of fuel yields a distinguished
  error; the canonical entry point supplies fuel that is generous for
  any input (each source line costs a bounded number of steps).
-/

/-! ## Character and string helpers (models of Rust `str` methods) -/

/-- Whitespace test used by Rust `char::is_whitespace` (ASCII fragment). -/
def wsChar (c : Char) : Bool := c.isWhitespace

/-- Model of Rust `str::trim` at the character level. -/
def listTrim (l : List Char) : List Char :=
  ((l.dropWhile wsChar).reverse.dropWhile wsChar).reverse

/-- Model of Rust `str::trim`. -/
def trimStr (s : String) : String := (listTrim s.toList).asString

/-- Model of Rust `str::trim_start`. -/
def trimStartStr (s : String) : String := (s.toList.dropWhile wsChar).asString

/-- Model of Rust `str::trim_start_matches(pred)` (removes every leading
character satisfying `pred`). -/
def trimStartMatchesPred (p : Char → Bool) (s : String) : String :=
  (s.toList.dropWhile p).asString

/-- Model of Rust `str::trim_end_matches(c)` (removes every trailing `c`). -/
def trimEndMatchesChar (s : String) (c : Char) : String :=
  ((s.toList.reverse.dropWhile (fun d => d = c)).reverse).asString

/-- Model of Rust `str::trim_matches(c)` (removes every leading and
trailing `c`). -/
def trimMatchesChar (s : String) (c : Char) : String :=
  (((s.toList.dropWhile (fun d => d = c)).reverse.dropWhile
      (fun d => d = c)).reverse).asString

/-- Split a character list at every character satisfying `p`, keeping
empty pieces — the behaviour of Rust `str::split`. -/
def splitOnPred (p : Char → Bool) : List Char → List (List Char)
  | [] => [[]]
  | c :: cs =>
    if p c then [] :: splitOnPred p cs
    else
      match splitOnPred p cs with
      | [] => [[c]]
      | t :: ts => (c :: t) :: ts

/-- Model of Rust `str::split(c)` (keeps empty pieces). -/
def splitCharStr (s : String) (c : Char) : List String :=
  (splitOnPred (fun d => d = c) s.toList).map List.asString

/-- Model of Rust `str::split_whitespace` (maximal non-empty runs of
non-whitespace characters). -/
def splitWhitespaceStr (s : String) : List String :=
  ((splitOnPred wsChar s.toList).filter (fun t => t ≠ [])).map List.asString

/-- Model of Rust `str::starts_with(pre)`. -/
def startsWithStr (s pre : String) : Bool :=
  pre.toList.isPrefixOf s.toList

/-- Model of Rust `str::strip_prefix` (`pre` is the string removed from
the front when present). -/
def stripPre (s pre : String) : Option String :=
  if pre.toList.isPrefixOf s.toList then
    some ((s.toList.drop pre.toList.length).asString)
  else none

/-- Model of Rust `str::strip_suffix(c)` for a single character. -/
def stripSuffixChar (s : String) (c : Char) : Option String :=
  match s.toList.reverse with
  | [] => none
  | d :: rest => if d = c then some rest.reverse.asString else none

/-- Model of Rust `str::contains(c)` for a character pattern. -/
def containsChar (s : String) (c : Char) : Bool :=
  s.toList.contains c

/-- Number of occurrences of `c`, i.e. Rust `s.matches(c).count()`. -/
def countChar (s : String) (c : Char) : Nat :=
  s.toList.count c

/-- First index at which `needle` occurs in `hay`
(model of Rust `str::find(&str)`, character indices). -/
def findSub (needle : List Char) : List Char → Option Nat
  | [] => if needle.isEmpty then some 0 else none
  | h :: t =>
    if needle.isPrefixOf (h :: t) then some 0
    else (findSub needle t).map (· + 1)

/-- Model of Rust `str::find(&str)` on strings. -/
def findSubStr (s pat : String) : Option Nat :=
  findSub pat.toList s.toList

/-- Model of Rust `str::contains(&str)` (substring containment). -/
def containsSub (s pat : String) : Bool :=
  (findSubStr s pat).isSome

/-- Model of Rust slicing `&s[n..]` (character index; ASCII agrees with
the byte index used in the source). -/
def dropStr (s : String) (n : Nat) : String :=
  (s.toList.drop n).asString

/-- Model of Rust slicing `&s[..n]`. -/
def takeStr (s : String) (n : Nat) : String :=
  (s.toList.take n).asString

/-! ## Integer parsing (models of Rust `str::parse`) -/

/-- Value of a non-empty all-digit character list, `none` otherwise. -/
def digitsVal : List Char → Option Nat
  | [] => none
  | l =>
    if l.all Char.isDigit then
      some (l.foldl (fun acc c => acc * 10 + (c.toNat - '0'.toNat)) 0)
    else none

/-- Model of Rust `str::parse::<i32>`: optional sign, one or more ASCII
digits, value within the `i32` range. -/
def parseI32 (s : String) : Option Int :=
  match s.toList with
  | '+' :: ds =>
    (digitsVal ds).bind fun n =>
      if (n : Int) ≤ 2 ^ 31 - 1 then some (n : Int) else none
  | '-' :: ds =>
    (digitsVal ds).bind fun n =>
      if (n : Int) ≤ 2 ^ 31 then some (-(n : Int)) else none
  | ds =>
    (digitsVal ds).bind fun n =>
      if (n : Int) ≤ 2 ^ 31 - 1 then some (n : Int) else none

/-- Model of Rust `str::parse::<u32>`: optional `+`, one or more ASCII
digits, value within the `u32` range. -/
def parseU32 (s : String) : Option Nat :=
  match s.toList with
  | '+' :: ds =>
    (digitsVal ds).bind fun n => if n ≤ 2 ^ 32 - 1 then some n else none
  | ds =>
    (digitsVal ds).bind fun n => if n ≤ 2 ^ 32 - 1 then some n else none

/-- Model of Rust `str::parse::<bool>` (exactly `true` or `false`). -/
def parseBoolStr (s : String) : Option Bool :=
  if s = "true" then some true
  else if s = "false" then some false
  else none

/-- Model of Rust `str::lines`: split on `\x0a`, drop a final empty
piece, and strip one trailing `\x0d` from each line. -/
def rustLines (content : String) : List String :=
  let pieces := splitCharStr content '\n'
  let pieces :=
    match pieces.reverse with
    | [] => []
    | last :: front => if last = "" then front.reverse else pieces
  pieces.map fun l =>
    match stripSuffixChar l '\r' with
    | some l' => l'
    | none => l

namespace Proto

/-! ## AST data model (`src/ast/structs.rs`)

Constructor and field names follow the Rust source; enumeration
constructors are lower-cased to avoid clashing with Lean type names, and
`ProtoFile.syntax` is rendered as `syntaxLabel` because `syntax` is not
usable as a name here.  `OptionValue::Number(f64)` is modelled with
`Float`; no code path in the repository ever constructs it. -/

/-- `OptionValue` from `structs.rs` (constructors `String`, `Number`,
`Boolean`, `Identifier`). -/
inductive OptionValue where
  | str : String → OptionValue
  | num : Float → OptionValue
  | boolean : Bool → OptionValue
  | ident : String → OptionValue
deriving Repr

/-- `ProtoOption` from `structs.rs`. -/
structure ProtoOption where
  name : String
  value : OptionValue
deriving Repr

/-- `FieldType` from `structs.rs`. -/
inductive FieldType where
  | double | float | int32 | int64 | uint32 | uint64
  | sint32 | sint64 | fixed32 | fixed64 | sfixed32 | sfixed64
  | bool | string | bytes
  | message : String → FieldType
  | enum : String → FieldType
  | map : FieldType → FieldType → FieldType
deriving Repr

/-- `FieldLabel` from `structs.rs`. -/
inductive FieldLabel where
  | optional | required | repeated
deriving Repr, DecidableEq

/-- `Field` from `structs.rs` (`number` is the Rust `i32`). -/
structure Field where
  name : String
  field_type : FieldType
  number : Int
  label : FieldLabel
  options : List ProtoOption
  default_value : Option OptionValue
deriving Repr

/-- `EnumValue` from `structs.rs`. -/
structure EnumValue where
  name : String
  number : Int
  options : List ProtoOption
deriving Repr

/-- `Enum` from `structs.rs`. -/
structure Enum where
  name : String
  values : List EnumValue
  options : List ProtoOption
deriving Repr

/-- `DmxpMessageOptions` from `structs.rs` (`buffer_size` and `priority`
are Rust `u32`). -/
structure DmxpMessageOptions where
  channel : Option String
  persistent : Option Bool
  buffer_size : Option Nat
  wal_enabled : Option Bool
  swap_enabled : Option Bool
  priority : Option Nat
deriving Repr

/-- `DmxpServiceOptions` from `structs.rs`. -/
structure DmxpServiceOptions where
  channels : List String
  timeout_ms : Option Nat
  retry_count : Option Nat
deriving Repr

/-- `DmxpMethodOptions` from `structs.rs`. -/
structure DmxpMethodOptions where
  channel : Option String
  timeout_ms : Option Nat
  is_async : Option Bool
deriving Repr

/-- `Method` from `structs.rs`. -/
structure Method where
  name : String
  input_type : String
  output_type : String
  options : List ProtoOption
  dmxp_options : Option DmxpMethodOptions
deriving Repr

/-- `Service` from `structs.rs`. -/
structure Service where
  name : String
  methods : List Method
  options : List ProtoOption
  dmxp_options : Option DmxpServiceOptions
deriving Repr

/-- `Message` from `structs.rs`; messages nest through
`nested_messages`. -/
inductive Message where
  | mk
      (name : String)
      (fields : List Field)
      (nested_messages : List Message)
      (nested_enums : List Enum)
      (options : List ProtoOption)
      (dmxp_options : Option DmxpMessageOptions)
deriving Repr

def Message.name : Message → String
  | .mk n _ _ _ _ _ => n

def Message.fields : Message → List Field
  | .mk _ f _ _ _ _ => f

def Message.nested_messages : Message → List Message
  | .mk _ _ nm _ _ _ => nm

def Message.nested_enums : Message → List Enum
  | .mk _ _ _ ne _ _ => ne

def Message.options : Message → List ProtoOption
  | .mk _ _ _ _ o _ => o

def Message.dmxp_options : Message → Option DmxpMessageOptions
  | .mk _ _ _ _ _ d => d

/-- `ChannelDirection` from `structs.rs`. -/
inductive ChannelDirection where
  | publish | subscribe | bidirectional
deriving Repr

/-- `DmxpChannelOptions` from `structs.rs`. -/
structure DmxpChannelOptions where
  buffer_size : Option Nat
  persistent : Option Bool
  wal_enabled : Option Bool
  swap_enabled : Option Bool
  priority : Option Nat
  timeout_ms : Option Nat
deriving Repr

/-- `DmxpChannel` from `structs.rs`. -/
structure DmxpChannel where
  name : String
  message_type : String
  direction : ChannelDirection
  options : DmxpChannelOptions
deriving Repr

/-- `Extension` from `structs.rs`. -/
structure Extension where
  name : String
  field_type : FieldType
  number : Int
  options : List ProtoOption
deriving Repr

/-- `ProtoFile` from `structs.rs`.  `AstBuilder::new` in `ast.rs` also
initialises an `extensions` collection (absent from the struct
declaration in `structs.rs`, which is stale); we follow `ast.rs`.
`syntaxLabel` renders the Rust field `syntax`. -/
structure ProtoFile where
  syntaxLabel : String
  package : String
  options : List ProtoOption
  messages : List Message
  services : List Service
  enums : List Enum
  extensions : List Extension
  dmxp_channels : List DmxpChannel
deriving Repr

/-- `AstBuilder` from `structs.rs`/`ast.rs`.  The `message_stack` field
declared in `structs.rs` is never initialised nor referenced by any
code, so it is omitted. -/
structure AstBuilder where
  current_file : ProtoFile
  current_message : Option Message
  current_service : Option Service
  current_enum : Option Enum
deriving Repr

end Proto

namespace Proto

/-! ## AST builder (`src/ast/ast.rs`) -/

/-- `AstBuilder::new`. -/
def newBuilder : AstBuilder where
  current_file :=
    { syntaxLabel := "proto3"
      package := ""
      options := []
      messages := []
      services := []
      enums := []
      extensions := []
      dmxp_channels := [] }
  current_message := none
  current_service := none
  current_enum := none

/-- Push a nested message onto a parent message's `nested_messages`. -/
def Message.pushNested (parent child : Message) : Message :=
  Message.mk parent.name parent.fields (parent.nested_messages ++ [child])
    parent.nested_enums parent.options parent.dmxp_options

/-- Push a nested enum onto a message's `nested_enums`. -/
def Message.pushNestedEnum (parent : Message) (e : Enum) : Message :=
  Message.mk parent.name parent.fields parent.nested_messages
    (parent.nested_enums ++ [e]) parent.options parent.dmxp_options

/-- `AstBuilder::set_syntax`. -/
def setSyntaxLabel (b : AstBuilder) (s : String) : AstBuilder :=
  { b with current_file := { b.current_file with syntaxLabel := s } }

/-- `AstBuilder::set_package`. -/
def set_package (b : AstBuilder) (p : String) : AstBuilder :=
  { b with current_file := { b.current_file with package := p } }

/-- `AstBuilder::start_message`.  The Rust code first `take()`s
`current_message` (leaving `None` behind) and only then asks for a
parent via `current_message.as_mut()`; the inner match on
`taken.current_message` reproduces that order faithfully, so the
parent branch below is unreachable, exactly as in the source. -/
def start_message (b : AstBuilder) (name : String) : AstBuilder :=
  let cur := b.current_message
  let taken : AstBuilder := { b with current_message := none }
  let b1 :=
    match cur with
    | some current_msg =>
      match taken.current_message with
      | some parent_msg =>
        { taken with current_message := some (parent_msg.pushNested current_msg) }
      | none =>
        let f := taken.current_file
        { taken with current_file := { f with messages := f.messages ++ [current_msg] } }
    | none => taken
  { b1 with current_message := some (Message.mk name [] [] [] [] none) }

/-- `AstBuilder::end_message` (same `take()`-before-parent-check shape
as `start_message`). -/
def end_message (b : AstBuilder) : AstBuilder :=
  let cur := b.current_message
  let taken : AstBuilder := { b with current_message := none }
  match cur with
  | some message =>
    match taken.current_message with
    | some parent_msg =>
      { taken with current_message := some (parent_msg.pushNested message) }
    | none =>
      let f := taken.current_file
      { taken with current_file := { f with messages := f.messages ++ [message] } }
  | none => taken

/-- `AstBuilder::add_field`. -/
def add_field (b : AstBuilder) (field : Field) : AstBuilder :=
  match b.current_message with
  | some m =>
    let m' := Message.mk m.name (m.fields ++ [field]) m.nested_messages
      m.nested_enums m.options m.dmxp_options
    { b with current_message := some m' }
  | none => b

/-- `AstBuilder::set_dmxp_message_options`. -/
def set_dmxp_message_options (b : AstBuilder)
    (options : DmxpMessageOptions) : AstBuilder :=
  match b.current_message with
  | some m =>
    let m' := Message.mk m.name m.fields m.nested_messages
      m.nested_enums m.options (some options)
    { b with current_message := some m' }
  | none => b

/-- `AstBuilder::get_dmxp_message_options` (read-only view of the
mutable borrow the Rust getter hands out). -/
def get_dmxp_message_options (b : AstBuilder) : Option DmxpMessageOptions :=
  b.current_message.bind fun m => m.dmxp_options

/-- `AstBuilder::start_service`. -/
def start_service (b : AstBuilder) (name : String) : AstBuilder :=
  let s : Service := { name := name, methods := [], options := [], dmxp_options := none }
  { b with current_service := some s }

/-- `AstBuilder::end_service`. -/
def end_service (b : AstBuilder) : AstBuilder :=
  match b.current_service with
  | some service =>
    let f := b.current_file
    { b with
        current_service := none
        current_file := { f with services := f.services ++ [service] } }
  | none => b

/-- `AstBuilder::add_method`. -/
def add_method (b : AstBuilder) (method : Method) : AstBuilder :=
  match b.current_service with
  | some s =>
    { b with current_service := some { s with methods := s.methods ++ [method] } }
  | none => b

/-- `AstBuilder::set_dmxp_service_options`. -/
def set_dmxp_service_options (b : AstBuilder)
    (options : DmxpServiceOptions) : AstBuilder :=
  match b.current_service with
  | some s =>
    { b with current_service := some { s with dmxp_options := some options } }
  | none => b

/-- `AstBuilder::start_enum`.  As in the source, a previously open enum
is first `take()`n and committed into the open message (or the file). -/
def start_enum (b : AstBuilder) (name : String) : AstBuilder :=
  let b1 :=
    match b.current_enum with
    | some current_enum =>
      match b.current_message with
      | some m =>
        { b with
            current_enum := none
            current_message := some (m.pushNestedEnum current_enum) }
      | none =>
        let f := b.current_file
        { b with
            current_enum := none
            current_file := { f with enums := f.enums ++ [current_enum] } }
    | none => b
  let e : Enum := { name := name, values := [], options := [] }
  { b1 with current_enum := some e }

/-- `AstBuilder::end_enum`. -/
def end_enum (b : AstBuilder) : AstBuilder :=
  match b.current_enum with
  | some enum_def =>
    match b.current_message with
    | some m =>
      { b with
          current_enum := none
          current_message := some (m.pushNestedEnum enum_def) }
    | none =>
      let f := b.current_file
      { b with
          current_enum := none
          current_file := { f with enums := f.enums ++ [enum_def] } }
  | none => b

/-- `AstBuilder::add_enum_value`. -/
def add_enum_value (b : AstBuilder) (value : EnumValue) : AstBuilder :=
  match b.current_enum with
  | some e =>
    { b with current_enum := some { e with values := e.values ++ [value] } }
  | none => b

/-- `AstBuilder::build`. -/
def build (b : AstBuilder) : ProtoFile := b.current_file

end Proto

namespace Proto

/-! ## Lexical helpers (`src/parser/mod.rs`) -/

/-- `extract_string_value` from `mod.rs`: first try the
`option (key) = "value";` spelling, then fall back to
`option key = "value";`.  As in the source, a parenthesised key whose
tail has no `=` falls through to the fallback search. -/
def extract_string_value (line key : String) : Option String :=
  let withParens :=
    match findSubStr line ("(" ++ key ++ ")") with
    | some start =>
      let rest := dropStr line (start + key.toList.length + 2)
      let rest := trimStartStr rest
      let rest := if startsWithStr rest ")" then trimStartStr (dropStr rest 1) else rest
      match findSubStr rest "=" with
      | some eq_pos =>
        let value_part := dropStr rest (eq_pos + 1)
        let value_part :=
          match findSubStr value_part ";" with
          | some e => takeStr value_part e
          | none => value_part
        some (trimMatchesChar (trimStr value_part) '"')
      | none => none
    | none => none
  match withParens with
  | some v => some v
  | none =>
    match findSubStr line key with
    | some start =>
      let rest := dropStr line (start + key.toList.length)
      let rest := trimStartStr rest
      match findSubStr rest "=" with
      | some eq_pos =>
        let value_part := dropStr rest (eq_pos + 1)
        let value_part :=
          match findSubStr value_part ";" with
          | some e => takeStr value_part e
          | none => value_part
        some (trimMatchesChar (trimStr value_part) '"')
      | none => none
    | none => none

/-- `extract_bool_value` from `mod.rs`. -/
def extract_bool_value (line key : String) : Option Bool :=
  (extract_string_value line key).bind parseBoolStr

/-- `extract_number_value::<u32>` from `mod.rs` (the only instantiation
the parser uses). -/
def extract_number_value_u32 (line key : String) : Option Nat :=
  (extract_string_value line key).bind parseU32

/-- `is_field_line` from `mod.rs`. -/
def is_field_line (line : String) : Bool :=
  let parts := splitWhitespaceStr line
  decide (parts.length ≥ 3) &&
  !startsWithStr line "message" &&
  !startsWithStr line "service" &&
  !startsWithStr line "enum" &&
  !startsWithStr line "option" &&
  !startsWithStr line "rpc" &&
  (containsChar (parts.getD 2 "") '=' ||
    (decide (parts.length > 3) && containsChar (parts.getD 3 "") '='))

/-! ## Per-line parser methods (`src/parser/parser.rs`)

Each Rust method re-reads `self.lines[self.current_line]` and trims it;
the models take that raw line as an argument and trim inside. -/

/-- Model of the syntax-declaration parser method of `ProtoParser` (renamed here because its Rust name is not usable in this file). -/
def parse_syntax_line (b : AstBuilder) (rawLine : String) : AstBuilder :=
  let line := trimStr rawLine
  match stripPre line "syntax" with
  | some rest =>
    let rest := trimStartStr (trimStartMatchesPred (fun c => wsChar c || c = '=') rest)
    let syn := trimMatchesChar (trimStr (trimEndMatchesChar rest ';')) '"'
    if syn ≠ "" then setSyntaxLabel b syn else b
  | none => b

/-- `ProtoParser::parse_package`. -/
def parse_package (b : AstBuilder) (rawLine : String) : AstBuilder :=
  let line := trimStr rawLine
  match (stripPre line "package").bind (fun s => stripSuffixChar s ';') with
  | some package => set_package b (trimStr package)
  | none => b

/-- `ProtoParser::parse_field_type`. -/
def parse_field_type (type_str : String) : FieldType :=
  match type_str with
  | "double" => .double
  | "float" => .float
  | "int32" => .int32
  | "int64" => .int64
  | "uint32" => .uint32
  | "uint64" => .uint64
  | "sint32" => .sint32
  | "sint64" => .sint64
  | "fixed32" => .fixed32
  | "fixed64" => .fixed64
  | "sfixed32" => .sfixed32
  | "sfixed64" => .sfixed64
  | "bool" => .bool
  | "string" => .string
  | "bytes" => .bytes
  | _ => .message type_str

/-- `ProtoParser::parse_field`.  The Rust `println!` debug statement has
no effect on the result; the `ParseIntError` display embedded in the
invalid-number message is elided. -/
def parse_field (b : AstBuilder) (rawLine : String) : Except String AstBuilder :=
  let line := trimStr rawLine
  let parts := splitWhitespaceStr line
  if parts.length < 3 then .ok b
  else
    let quad : Except String (FieldLabel × String × String × String) :=
      if parts.getD 0 "" = "repeated" then
        if parts.length < 5 then .error ("Malformed repeated field: " ++ line)
        else .ok (FieldLabel.repeated, parts.getD 1 "", parts.getD 2 "", parts.getD 4 "")
      else
        if parts.length < 4 then .error ("Malformed field: " ++ line)
        else .ok (FieldLabel.optional, parts.getD 0 "", parts.getD 1 "", parts.getD 3 "")
    match quad with
    | .error e => .error e
    | .ok (label, field_type_token, name_token, number_token) =>
      let number_str := trimEndMatchesChar number_token ';'
      if number_str = "" then .error ("Empty field number in line: " ++ line)
      else
        match parseI32 number_str with
        | none => .error ("Invalid field number '" ++ number_str ++ "'")
        | some number =>
          let field : Field :=
            { name := name_token
              field_type := parse_field_type field_type_token
              number := number
              label := label
              options := []
              default_value := none }
          .ok (add_field b field)

/-- `ProtoParser::parse_message_option`.  Note that whenever the line
mentions `dmxp_` at all, the (possibly unchanged) options record is
written back via `set_dmxp_message_options`, exactly as in the source. -/
def parse_message_option (b : AstBuilder) (rawLine : String) : AstBuilder :=
  let line := trimStr rawLine
  if containsSub line "dmxp_" then
    let dmxp_options :=
      match get_dmxp_message_options b with
      | some opt => opt
      | none =>
        { channel := none, persistent := none, buffer_size := none,
          wal_enabled := none, swap_enabled := none, priority := none }
    let dmxp_options :=
      if containsSub line "dmxp_channel" then
        match extract_string_value line "dmxp_channel" with
        | some channel_name => { dmxp_options with channel := some channel_name }
        | none => dmxp_options
      else if containsSub line "dmxp_persistent" then
        match extract_bool_value line "dmxp_persistent" with
        | some persistent => { dmxp_options with persistent := some persistent }
        | none => dmxp_options
      else if containsSub line "dmxp_buffer_size" then
        match extract_number_value_u32 line "dmxp_buffer_size" with
        | some size => { dmxp_options with buffer_size := some size }
        | none => dmxp_options
      else if containsSub line "dmxp_wal_enabled" then
        match extract_bool_value line "dmxp_wal_enabled" with
        | some enabled => { dmxp_options with wal_enabled := some enabled }
        | none => dmxp_options
      else if containsSub line "dmxp_swap_enabled" then
        match extract_bool_value line "dmxp_swap_enabled" with
        | some enabled => { dmxp_options with swap_enabled := some enabled }
        | none => dmxp_options
      else if containsSub line "dmxp_priority" then
        match extract_number_value_u32 line "dmxp_priority" with
        | some priority => { dmxp_options with priority := some priority }
        | none => dmxp_options
      else dmxp_options
    set_dmxp_message_options b dmxp_options
  else b

/-- Default `DmxpServiceOptions` record built inline by
`parse_service_option`. -/
def emptyServiceOptions : DmxpServiceOptions :=
  { channels := [], timeout_ms := none, retry_count := none }

/-- `ProtoParser::parse_service_option`: three independent (not
`else`-chained) key checks, each re-reading the service's current
options. -/
def parse_service_option (b : AstBuilder) (rawLine : String) : AstBuilder :=
  let line := trimStr rawLine
  let b :=
    if containsSub line "dmxp_channels" then
      match extract_string_value line "dmxp_channels" with
      | some channel_name =>
        let existing :=
          match b.current_service.bind (fun s => s.dmxp_options) with
          | some o => o
          | none => emptyServiceOptions
        set_dmxp_service_options b
          { existing with channels := existing.channels ++ [channel_name] }
      | none => b
    else b
  let b :=
    if containsSub line "dmxp_timeout_ms" then
      match extract_string_value line "dmxp_timeout_ms" with
      | some timeout_str =>
        match parseU32 timeout_str with
        | some timeout_ms =>
          let existing :=
            match b.current_service.bind (fun s => s.dmxp_options) with
            | some o => o
            | none => emptyServiceOptions
          set_dmxp_service_options b { existing with timeout_ms := some timeout_ms }
        | none => b
      | none => b
    else b
  let b :=
    if containsSub line "dmxp_retry_count" then
      match extract_string_value line "dmxp_retry_count" with
      | some retry_str =>
        match parseU32 retry_str with
        | some retry_count =>
          let existing :=
            match b.current_service.bind (fun s => s.dmxp_options) with
            | some o => o
            | none => emptyServiceOptions
          set_dmxp_service_options b { existing with retry_count := some retry_count }
        | none => b
      | none => b
    else b
  b

/-- ASCII fragment of the regex class `\w`. -/
def isWordChar (c : Char) : Bool := c.isAlphanum || c = '_'

/-- ASCII fragment of the regex class `[A-Za-z_]`. -/
def isIdentStart (c : Char) : Bool := c.isAlpha || c = '_'

/-- Greedy match of `[A-Za-z_]\w*`, returning the token and the rest. -/
def matchIdent : List Char → Option (List Char × List Char)
  | [] => none
  | c :: cs =>
    if isIdentStart c then some (c :: cs.takeWhile isWordChar, cs.dropWhile isWordChar)
    else none

/-- Drop `\s*`. -/
def dropWs (l : List Char) : List Char := l.dropWhile wsChar

/-- Expect one literal character. -/
def expectChar (c : Char) : List Char → Option (List Char)
  | [] => none
  | d :: ds => if d = c then some ds else none

/-- Expect a literal string. -/
def expectStrTok (s : String) (l : List Char) : Option (List Char) :=
  if s.toList.isPrefixOf l then some (l.drop s.toList.length) else none

/-- Model of the anchored regex used by `ProtoParser::parse_method`:
`^rpc\s+([A-Za-z_]\w*)\s*\(\s*([A-Za-z_]\w*)\s*\)\s*returns\s*\(\s*([A-Za-z_]\w*)\s*\)`
(the pattern is deterministic, so greedy scanning needs no
backtracking). -/
def rpcCaptures (line : String) : Option (String × String × String) := do
  let l ← expectStrTok "rpc" line.toList
  match l with
  | [] => none
  | c :: rest =>
    if wsChar c then do
      let l := dropWs rest
      let (name, l) ← matchIdent l
      let l ← expectChar '(' (dropWs l)
      let (input, l) ← matchIdent (dropWs l)
      let l ← expectChar ')' (dropWs l)
      let l ← expectStrTok "returns" (dropWs l)
      let l ← expectChar '(' (dropWs l)
      let (output, l) ← matchIdent (dropWs l)
      let _ ← expectChar ')' (dropWs l)
      some (name.asString, input.asString, output.asString)
    else none

/-- `ProtoParser::parse_method` (debug `println!` omitted). -/
def parse_method (b : AstBuilder) (rawLine : String) : Except String AstBuilder :=
  let line := trimStr rawLine
  let line :=
    match findSubStr line "//" with
    | some idx => takeStr line idx
    | none => line
  let line := trimStr (trimEndMatchesChar line ';')
  if !startsWithStr line "rpc " then .ok b
  else
    match rpcCaptures line with
    | some (name, input_type, output_type) =>
      let method : Method :=
        { name := name, input_type := input_type, output_type := output_type,
          options := [], dmxp_options := none }
      .ok (add_method b method)
    | none => .error ("Invalid RPC syntax: " ++ line)

/-- `ProtoParser::parse_enum_value`.  Rust splits on every `=` and only
acts when that yields exactly two parts; the propagated
`ParseIntError` display is modelled by a fixed message. -/
def parse_enum_value (b : AstBuilder) (rawLine : String) : Except String AstBuilder :=
  let line := trimStr rawLine
  let parts := splitCharStr line '='
  if parts.length = 2 then
    let name := trimStr (parts.getD 0 "")
    let numStr := trimStr (trimEndMatchesChar (parts.getD 1 "") ';')
    match parseI32 numStr with
    | none => .error ("invalid digit found in string")
    | some number =>
      .ok (add_enum_value b { name := name, number := number, options := [] })
  else .ok b

end Proto

namespace Proto

/-! ## The recursive parser loops (`src/parser/parser.rs`)

`ProtoParser::parse`, `parse_message`, `parse_message_body`,
`parse_service(_body)` and `parse_enum(_body)` walk `self.lines` with a
`current_line` cursor.  Each function below takes the line list, the
cursor, and returns the updated builder together with the cursor value
on return (callers advance past it, as the Rust loops do with their
trailing `current_line += 1`).  A fuel argument makes the mutual
recursion structural; the canonical entry point supplies ample fuel.
The `usize` brace counters of the service/enum body loops are modelled
as `Int` (debug-build underflow panics on over-closed blocks show up as
the count going negative and ending the loop). -/

mutual

/-- The `while` loop of `ProtoParser::parse`. -/
def parse_loop : Nat → List String → Nat → AstBuilder → Except String AstBuilder
  | 0, _, _, _ => .error "model: out of fuel"
  | fuel+1, lines, idx, b =>
    if h : idx < lines.length then
      let raw := lines.get ⟨idx, h⟩
      let line := trimStr raw
      if line = "" then parse_loop fuel lines (idx+1) b
      else if startsWithStr line "syntax" then
        parse_loop fuel lines (idx+1) (parse_syntax_line b raw)
      else if startsWithStr line "package" then
        parse_loop fuel lines (idx+1) (parse_package b raw)
      else if startsWithStr line "message " then
        match parse_message fuel lines idx b with
        | .error e => .error e
        | .ok (b', idx') => parse_loop fuel lines (idx'+1) b'
      else if startsWithStr line "service " then
        match parse_service fuel lines idx b with
        | .error e => .error e
        | .ok (b', idx') => parse_loop fuel lines (idx'+1) b'
      else if startsWithStr line "enum " then
        match parse_enum fuel lines idx b with
        | .error e => .error e
        | .ok (b', idx') => parse_loop fuel lines (idx'+1) b'
      else parse_loop fuel lines (idx+1) b
    else .ok b

/-- `ProtoParser::parse_message`. -/
def parse_message : Nat → List String → Nat → AstBuilder → Except String (AstBuilder × Nat)
  | 0, _, _, _ => .error "model: out of fuel"
  | fuel+1, lines, idx, b =>
    let line := trimStr (lines.getD idx "")
    match (stripPre line "message ").bind (fun s => (splitWhitespaceStr s).head?) with
    | some tok =>
      let name := trimEndMatchesChar tok '{'
      let b := start_message b name
      match parse_message_body fuel lines (idx+1) b with
      | .error e => .error e
      | .ok (b', idx') => .ok (end_message b', idx')
    | none => .ok (b, idx)

/-- The loop of `ProtoParser::parse_message_body` (entered at the line
after the `message` header; returns with the cursor on the closing
brace line). -/
def parse_message_body : Nat → List String → Nat → AstBuilder → Except String (AstBuilder × Nat)
  | 0, _, _, _ => .error "model: out of fuel"
  | fuel+1, lines, idx, b =>
    if h : idx < lines.length then
      let raw := lines.get ⟨idx, h⟩
      let line := trimStr raw
      if line = "" then parse_message_body fuel lines (idx+1) b
      else if line = "\x7d" then .ok (b, idx)
      else if startsWithStr line "message " then
        match parse_message fuel lines idx b with
        | .error e => .error e
        | .ok (b', idx') => parse_message_body fuel lines (idx'+1) b'
      else if startsWithStr line "enum " then
        match parse_enum fuel lines idx b with
        | .error e => .error e
        | .ok (b', idx') => parse_message_body fuel lines (idx'+1) b'
      else if startsWithStr line "option " then
        parse_message_body fuel lines (idx+1) (parse_message_option b raw)
      else if is_field_line line then
        match parse_field b raw with
        | .error e => .error e
        | .ok b' => parse_message_body fuel lines (idx+1) b'
      else parse_message_body fuel lines (idx+1) b
    else .error "Unexpected end of file while parsing message"

/-- `ProtoParser::parse_service`. -/
def parse_service : Nat → List String → Nat → AstBuilder → Except String (AstBuilder × Nat)
  | 0, _, _, _ => .error "model: out of fuel"
  | fuel+1, lines, idx, b =>
    let line := trimStr (lines.getD idx "")
    match (stripPre line "service ").bind (fun s => (splitWhitespaceStr s).head?) with
    | some tok =>
      let name := trimEndMatchesChar tok '{'
      let b := start_service b name
      match parse_service_body fuel lines (idx+1) 1 b with
      | .error e => .error e
      | .ok (b', idx') => .ok (end_service b', idx')
    | none => .ok (b, idx)

/-- The loop of `ProtoParser::parse_service_body` (brace counter starts
at 1; on `break` the cursor stays on the closing line). -/
def parse_service_body : Nat → List String → Nat → Int → AstBuilder → Except String (AstBuilder × Nat)
  | 0, _, _, _, _ => .error "model: out of fuel"
  | fuel+1, lines, idx, brace, b =>
    if h : idx < lines.length then
      if brace > 0 then
        let raw := lines.get ⟨idx, h⟩
        let line := trimStr raw
        if line = "" || startsWithStr line "//" then
          parse_service_body fuel lines (idx+1) brace b
        else
          let brace1 := if containsChar line '{' then brace + (countChar line '{' : Int) else brace
          let brace2 := if containsChar line '}' then brace1 - (countChar line '}' : Int) else brace1
          if containsChar line '}' && brace2 = 0 then .ok (b, idx)
          else if startsWithStr line "option" then
            parse_service_body fuel lines (idx+1) brace2 (parse_service_option b raw)
          else if startsWithStr line "rpc" then
            match parse_method b raw with
            | .error e => .error e
            | .ok b' => parse_service_body fuel lines (idx+1) brace2 b'
          else parse_service_body fuel lines (idx+1) brace2 b
      else .ok (b, idx)
    else .ok (b, idx)

/-- `ProtoParser::parse_enum`. -/
def parse_enum : Nat → List String → Nat → AstBuilder → Except String (AstBuilder × Nat)
  | 0, _, _, _ => .error "model: out of fuel"
  | fuel+1, lines, idx, b =>
    let line := trimStr (lines.getD idx "")
    match (stripPre line "enum ").bind (fun s => (splitWhitespaceStr s).head?) with
    | some tok =>
      let name := trimEndMatchesChar tok '{'
      let b := start_enum b name
      match parse_enum_body fuel lines (idx+1) 1 b with
      | .error e => .error e
      | .ok (b', idx') => .ok (end_enum b', idx')
    | none => .ok (b, idx)

/-- The loop of `ProtoParser::parse_enum_body`. -/
def parse_enum_body : Nat → List String → Nat → Int → AstBuilder → Except String (AstBuilder × Nat)
  | 0, _, _, _, _ => .error "model: out of fuel"
  | fuel+1, lines, idx, brace, b =>
    if h : idx < lines.length then
      if brace > 0 then
        let raw := lines.get ⟨idx, h⟩
        let line := trimStr raw
        if line = "" || startsWithStr line "//" then
          parse_enum_body fuel lines (idx+1) brace b
        else
          let brace1 := if containsChar line '{' then brace + (countChar line '{' : Int) else brace
          let brace2 := if containsChar line '}' then brace1 - (countChar line '}' : Int) else brace1
          if containsChar line '}' && brace2 = 0 then .ok (b, idx)
          else if containsChar line '=' && !startsWithStr line "option" then
            match parse_enum_value b raw with
            | .error e => .error e
            | .ok b' => parse_enum_body fuel lines (idx+1) brace2 b'
          else parse_enum_body fuel lines (idx+1) brace2 b
      else .ok (b, idx)
    else .ok (b, idx)

end

/-- Canonical fuel: every source line costs a bounded number of steps,
so this is ample for any input. -/
def parseFuel (lines : List String) : Nat := 4 * lines.length + 8

/-- `ProtoParser::parse` over a list of source lines. -/
def parseProtoFile (lines : List String) : Except String ProtoFile :=
  match parse_loop (parseFuel lines) lines 0 newBuilder with
  | .error e => .error e
  | .ok b => .ok (build b)

/-- `ProtoParser::new(content)` followed by `parse()`. -/
def parseProto (content : String) : Except String ProtoFile :=
  parseProtoFile (rustLines content)

/-! ## Go conversion tables (`src/templateGen/template_generator.rs`) -/

/-- `Language` from `template_generator.rs`. -/
inductive Language where
  | rust | go
deriving Repr, DecidableEq

/-- `helpers::convert_to_go_type`. -/
def convert_to_go_type : FieldType → String
  | .double => "float64"
  | .float => "float32"
  | .int32 => "int32"
  | .int64 => "int64"
  | .uint32 => "uint32"
  | .uint64 => "uint64"
  | .sint32 => "int32"
  | .sint64 => "int64"
  | .fixed32 => "uint32"
  | .fixed64 => "uint64"
  | .sfixed32 => "int32"
  | .sfixed64 => "int64"
  | .bool => "bool"
  | .string => "string"
  | .bytes => "[]byte"
  | .message name => "*" ++ name
  | .enum name => name
  | .map key_type value_type =>
    "map[" ++ convert_to_go_type key_type ++ "]" ++ convert_to_go_type value_type

/-- `helpers::convert_field_label`. -/
def convert_field_label (label : FieldLabel) (language : Language) : String :=
  match language with
  | .rust =>
    match label with
    | .optional => "Option<"
    | .required => ""
    | .repeated => "Vec<"
  | .go =>
    match label with
    | .optional => "*"
    | .required => ""
    | .repeated => "[]"

/-- `helpers::to_pascal_case` (Rust `char::to_uppercase`, ASCII
fragment). -/
def to_pascal_case (s : String) : String :=
  String.join ((splitCharStr s '_').map fun word =>
    match word.toList with
    | [] => ""
    | first :: rest => (first.toUpper :: rest).asString)

/-- `helpers::convert_field_name`. -/
def convert_field_name (name : String) (language : Language) : String :=
  match language with
  | .rust => name
  | .go => to_pascal_case name

end Proto

namespace Proto

/-! ## Reachable fields of a message tree -/

mutual

/-- All fields reachable in a message, its own and those of nested
messages at any depth. -/
def Message.allFields : Message → List Field
  | .mk _ fields nested _ _ _ => fields ++ allFieldsList nested

/-- All fields reachable in a list of messages. -/
def allFieldsList : List Message → List Field
  | [] => []
  | m :: ms => Message.allFields m ++ allFieldsList ms

end

/-! ## Claim theorems (concrete evaluations) -/

/-- C1: the claim says a message declared inside another message lands in
the parent's `nested_messages` and never in the file's top-level list.
The code does the opposite: `start_message`/`end_message` `take()` the
current message before looking for a parent, so the parent branch is
dead and `Inner` is pushed to `ProtoFile.messages` while
`Outer.nested_messages` stays empty, as this evaluation of the parser on
a nested schema shows. -/
theorem nested_message_emitted_at_top_level :
    parseProto "message Outer \x7b\nmessage Inner \x7b\n\x7d\n\x7d" =
      Except.ok
        { syntaxLabel := "proto3", package := "", options := [],
          messages := [Message.mk "Outer" [] [] [] [] none,
                       Message.mk "Inner" [] [] [] [] none],
          services := [], enums := [], extensions := [],
          dmxp_channels := [] } := by
  rfl

/-- C2 counterexample: the claim asserts that a message, service or enum
body reaching end-of-input before its closing delimiter makes the whole
parse fail.  An unterminated enum body and an unterminated service body
both parse successfully (their body loops simply stop at end-of-input),
refuting the claim for services and enums. -/
theorem unterminated_enum_and_service_parse_ok :
    parseProto "enum E \x7b\nA = 1;" =
      Except.ok
        { syntaxLabel := "proto3", package := "", options := [],
          messages := [], services := [],
          enums := [{ name := "E",
                      values := [{ name := "A", number := 1, options := [] }],
                      options := [] }],
          extensions := [], dmxp_channels := [] } ∧
    parseProto "service S \x7b" =
      Except.ok
        { syntaxLabel := "proto3", package := "", options := [],
          messages := [],
          services := [{ name := "S", methods := [], options := [],
                         dmxp_options := none }],
          enums := [], extensions := [], dmxp_channels := [] } := by
  exact ⟨rfl, rfl⟩

/-- C4 counterexample: the claim says every field in a successfully
parsed file has a strictly positive number.  `parse_field` accepts any
`i32`, so a schema with field number `0` parses successfully and the
resulting field number is not strictly positive. -/
theorem field_number_zero_accepted :
    parseProto "message M \x7b\nint32 x = 0;\n\x7d" =
      Except.ok
        { syntaxLabel := "proto3", package := "", options := [],
          messages := [Message.mk "M"
            [{ name := "x", field_type := FieldType.int32, number := 0,
               label := FieldLabel.optional, options := [],
               default_value := none }] [] [] [] none],
          services := [], enums := [], extensions := [],
          dmxp_channels := [] } := by
  rfl

/-- C5: parsing `message Bad` whose body holds the field line
`string name = ;` fails with the structural error naming the empty
field number, and the result carries no AST (the error constructor has
no `ProtoFile` payload). -/
theorem empty_field_number_is_fatal :
    parseProto "message Bad \x7b\nstring name = ;\n\x7d" =
      Except.error "Empty field number in line: string name = ;" := by
  rfl

/-- C8 counterexample: the claim says every enum-body line containing
`=` that is not an option line is split on the FIRST `=` and a failed
integer parse of the right side is a fatal error.  The line `B = = 2;`
contains `=`, its first-split right side `= 2` does not parse as an
integer, yet the parse succeeds and records nothing:
`parse_enum_value` splits on every `=` and silently ignores lines not
yielding exactly two parts. -/
theorem enum_double_equals_silently_ignored :
    parseProto "enum E \x7b\nB = = 2;\n\x7d" =
      Except.ok
        { syntaxLabel := "proto3", package := "", options := [],
          messages := [], services := [],
          enums := [{ name := "E", values := [], options := [] }],
          extensions := [], dmxp_channels := [] } := by
  rfl

/-- C9: for a `repeated int32 tags` field the Go conversion tables give
the sequence wrapper `[]` as label spelling, `int32` as type name, and
the PascalCase identifier `Tags`. -/
theorem go_conversion_repeated_int32_tags :
    convert_to_go_type FieldType.int32 = "int32" ∧
    convert_field_label FieldLabel.repeated Language.go = "[]" ∧
    convert_field_name "tags" Language.go = "Tags" := by
  exact ⟨rfl, rfl, rfl⟩

end Proto

namespace Proto

/-! ## Small facts about the string helpers -/

/-- A line starting with `message ` is non-empty. -/
theorem startsWith_message_ne_empty (l : String)
    (h : startsWithStr l "message " = true) : ¬(l = "") := by
  intro he
  subst he
  exact absurd h (by decide)

/-- A line starting with `message ` does not start with `syntax`. -/
theorem startsWith_message_not_syntaxKw (l : String)
    (h : startsWithStr l "message " = true) :
    startsWithStr l "syntax" = false := by
  unfold startsWithStr at h ⊢
  have hm : "message ".toList = ['m','e','s','s','a','g','e',' '] := rfl
  have hs : "syntax".toList = ['s','y','n','t','a','x'] := rfl
  rw [hm] at h
  rw [hs]
  cases hl : l.toList with
  | nil => rw [hl] at h; simp [List.isPrefixOf] at h
  | cons c cs =>
    rw [hl] at h
    simp only [List.isPrefixOf, Bool.and_eq_true, beq_iff_eq] at h
    simp only [List.isPrefixOf, Bool.and_eq_false_iff, beq_eq_false_iff_ne]
    exact Or.inl (h.1 ▸ (by decide))

/-- A line starting with `message ` does not start with `package`. -/
theorem startsWith_message_not_packageKw (l : String)
    (h : startsWithStr l "message " = true) :
    startsWithStr l "package" = false := by
  unfold startsWithStr at h ⊢
  have hm : "message ".toList = ['m','e','s','s','a','g','e',' '] := rfl
  have hs : "package".toList = ['p','a','c','k','a','g','e'] := rfl
  rw [hm] at h
  rw [hs]
  cases hl : l.toList with
  | nil => rw [hl] at h; simp [List.isPrefixOf] at h
  | cons c cs =>
    rw [hl] at h
    simp only [List.isPrefixOf, Bool.and_eq_true, beq_iff_eq] at h
    simp only [List.isPrefixOf, Bool.and_eq_false_iff, beq_eq_false_iff_ne]
    exact Or.inl (h.1 ▸ (by decide))

/-- Trimming introduces no new characters: a character absent from a
line is absent from its trimmed form. -/
theorem containsChar_trim_false (raw : String) (c : Char)
    (h : containsChar raw c = false) : containsChar (trimStr raw) c = false := by
  cases hc : containsChar (trimStr raw) c with
  | false => rfl
  | true =>
    exfalso
    have hm : c ∈ (listTrim raw.toList) := by
      have : (trimStr raw).toList = listTrim raw.toList := rfl
      simpa [containsChar, List.contains, this] using hc
    have hmem : c ∈ raw.toList := by
      unfold listTrim at hm
      simp only [List.mem_reverse] at hm
      have hm2 := (List.dropWhile_sublist _).mem hm
      simp only [List.mem_reverse] at hm2
      exact (List.dropWhile_sublist _).mem hm2
    have : containsChar raw c = true := by
      simpa [containsChar, List.contains] using hmem
    rw [this] at h
    exact Bool.noConfusion h

/-- If a line's trimmed form is the lone closing brace, the raw line
contains a closing brace. -/
theorem trim_eq_brace_contains (raw : String)
    (h : trimStr raw = "\x7d") : containsChar raw '}' = true := by
  cases hc : containsChar raw '}' with
  | true => rfl
  | false =>
    exfalso
    have := containsChar_trim_false raw '}' hc
    rw [h] at this
    exact absurd this (by decide)

end Proto

namespace Proto

/-! ## C3: the field-line classifier against the spec -/

/-- Label keywords per the spec's `Label` set
(`Optional | Required | Repeated`). -/
def spec_label_keyword (t : String) : Bool :=
  t = "optional" || t = "required" || t = "repeated"

/-- Spec-side classifier, following the claim's words: true iff the
line does not start with a construct keyword and, after splitting on
whitespace, has at least 3 tokens where the field-number position
contains `=`: directly at token position 2, or at token position 3 only
when a label keyword occupies token position 0. -/
def classify_as_field_claim (line : String) : Bool :=
  let parts := splitWhitespaceStr line
  !startsWithStr line "message" &&
  !startsWithStr line "service" &&
  !startsWithStr line "enum" &&
  !startsWithStr line "option" &&
  !startsWithStr line "rpc" &&
  decide (parts.length ≥ 3) &&
  (containsChar (parts.getD 2 "") '=' ||
    (spec_label_keyword (parts.getD 0 "") && containsChar (parts.getD 3 "") '='))

/-- Spec-side classifier following the amended claim: `=` at token
position 2, or at token position 3 whenever a fourth token exists — no
label-keyword requirement on token 0. -/
def classify_as_field_amended (line : String) : Bool :=
  let parts := splitWhitespaceStr line
  !startsWithStr line "message" &&
  !startsWithStr line "service" &&
  !startsWithStr line "enum" &&
  !startsWithStr line "option" &&
  !startsWithStr line "rpc" &&
  decide (parts.length ≥ 3) &&
  (containsChar (parts.getD 2 "") '=' ||
    (decide (parts.length > 3) && containsChar (parts.getD 3 "") '='))

/-- C3 counterexample: on the trimmed, non-empty, non-comment line
`a b c = 1`, whose token 0 is no label keyword and whose token 3
contains `=`, the code's classifier answers `true` while the claim
demands `false` (the claim allows the position-3 `=` only under a label
keyword at position 0). -/
theorem field_classifier_label_condition_refuted :
    trimStr "a b c = 1" = "a b c = 1" ∧
    "a b c = 1" ≠ "" ∧
    startsWithStr "a b c = 1" "//" = false ∧
    is_field_line "a b c = 1" = true ∧
    classify_as_field_claim "a b c = 1" = false := by
  exact ⟨rfl, by decide, rfl, rfl, rfl⟩

/-- C3 amended: for every trimmed, non-empty, non-comment line, the
code's classifier agrees with the amended spec classifier, which
accepts `=` at token position 2 or at token position 3 (when a fourth
token exists) with no label-keyword condition. -/
theorem field_classifier_amended_agrees (line : String)
    (htrim : trimStr line = line) (hne : line ≠ "")
    (hcom : startsWithStr line "//" = false) :
    is_field_line line = classify_as_field_amended line := by
  unfold is_field_line classify_as_field_amended
  rw [Bool.eq_iff_iff]
  simp only [Bool.and_eq_true, Bool.or_eq_true, Bool.not_eq_true', decide_eq_true_eq]
  tauto

/-- C3 amended, witness: the amended equivalence applied to the
concrete in-domain line `int32 x = 1;`. -/
theorem field_classifier_amended_agrees_witness :
    is_field_line "int32 x = 1;" = classify_as_field_amended "int32 x = 1;" :=
  field_classifier_amended_agrees "int32 x = 1;" rfl (by decide) rfl

end Proto

namespace Proto

/-- C6: for any message under construction, processing an option line
that sets the persistence flag and then an option line that sets the
buffer size leaves both sub-fields present in the resulting
`DmxpMessageOptions`: the later line merges into (not replaces) the
binding written by the earlier one. -/
theorem message_option_merge_preserves_subfields
    (b : AstBuilder) (m : Message) (l1 l2 : String) (bv : Bool) (n : Nat)
    (hcm : b.current_message = some m)
    (h1a : containsSub (trimStr l1) "dmxp_" = true)
    (h1b : containsSub (trimStr l1) "dmxp_channel" = false)
    (h1c : containsSub (trimStr l1) "dmxp_persistent" = true)
    (h1d : extract_bool_value (trimStr l1) "dmxp_persistent" = some bv)
    (h2a : containsSub (trimStr l2) "dmxp_" = true)
    (h2b : containsSub (trimStr l2) "dmxp_channel" = false)
    (h2c : containsSub (trimStr l2) "dmxp_persistent" = false)
    (h2d : containsSub (trimStr l2) "dmxp_buffer_size" = true)
    (h2e : extract_number_value_u32 (trimStr l2) "dmxp_buffer_size" = some n) :
    ∃ m' o,
      (parse_message_option (parse_message_option b l1) l2).current_message = some m' ∧
      m'.dmxp_options = some o ∧ o.persistent = some bv ∧ o.buffer_size = some n := by
  cases hdm : m.dmxp_options with
  | none =>
    simp only [parse_message_option, h1a, h1b, h1c, h1d, h2a, h2b, h2c, h2d, h2e,
      get_dmxp_message_options, set_dmxp_message_options, hcm, hdm,
      Option.some_bind, if_true, if_false, Bool.false_eq_true, ite_false, ite_true]
    exact ⟨_, _, rfl, rfl, rfl, rfl⟩
  | some o0 =>
    simp only [parse_message_option, h1a, h1b, h1c, h1d, h2a, h2b, h2c, h2d, h2e,
      get_dmxp_message_options, set_dmxp_message_options, hcm, hdm,
      Option.some_bind, if_true, if_false, Bool.false_eq_true, ite_false, ite_true]
    exact ⟨_, _, rfl, rfl, rfl, rfl⟩

/-- C6 witness: the merge theorem applied to a freshly opened message
and the concrete lines `option (dmxp_persistent) = true;` and
`option (dmxp_buffer_size) = 1024;`. -/
theorem message_option_merge_preserves_subfields_witness :
    (start_message newBuilder "M").current_message = some (Message.mk "M" [] [] [] [] none) ∧
    ∃ m' o,
      (parse_message_option
        (parse_message_option (start_message newBuilder "M")
          "option (dmxp_persistent) = true;")
        "option (dmxp_buffer_size) = 1024;").current_message = some m' ∧
      m'.dmxp_options = some o ∧ o.persistent = some true ∧ o.buffer_size = some 1024 :=
  ⟨rfl,
    message_option_merge_preserves_subfields (start_message newBuilder "M")
      (Message.mk "M" [] [] [] [] none)
      "option (dmxp_persistent) = true;" "option (dmxp_buffer_size) = 1024;"
      true 1024 rfl rfl rfl rfl rfl rfl rfl rfl rfl rfl⟩

/-- C7: for a service whose options are still unset, two option lines
carrying extractable `dmxp_channels` string values accumulate into a
channel list of length two in source order. -/
theorem service_channels_accumulate_in_order
    (b : AstBuilder) (s : Service) (l1 l2 c1 c2 : String)
    (hcs : b.current_service = some s)
    (hso : s.dmxp_options = none)
    (h1a : containsSub (trimStr l1) "dmxp_channels" = true)
    (h1b : extract_string_value (trimStr l1) "dmxp_channels" = some c1)
    (h1c : containsSub (trimStr l1) "dmxp_timeout_ms" = false)
    (h1d : containsSub (trimStr l1) "dmxp_retry_count" = false)
    (h2a : containsSub (trimStr l2) "dmxp_channels" = true)
    (h2b : extract_string_value (trimStr l2) "dmxp_channels" = some c2)
    (h2c : containsSub (trimStr l2) "dmxp_timeout_ms" = false)
    (h2d : containsSub (trimStr l2) "dmxp_retry_count" = false) :
    ∃ s' o,
      (parse_service_option (parse_service_option b l1) l2).current_service = some s' ∧
      s'.dmxp_options = some o ∧ o.channels = [c1, c2] := by
  simp only [parse_service_option, h1a, h1b, h1c, h1d, h2a, h2b, h2c, h2d,
    set_dmxp_service_options, hcs, hso, emptyServiceOptions,
    Option.some_bind, Option.none_bind, if_true, if_false, Bool.false_eq_true,
    ite_false, ite_true, List.nil_append]
  exact ⟨_, _, rfl, rfl, rfl⟩

/-- C7 witness: the accumulation theorem applied to a freshly opened
service and two concrete `dmxp_channels` option lines. -/
theorem service_channels_accumulate_in_order_witness :
    (start_service newBuilder "S").current_service =
      some { name := "S", methods := [], options := [], dmxp_options := none } ∧
    ∃ s' o,
      (parse_service_option
        (parse_service_option (start_service newBuilder "S")
          "option (dmxp_channels) = \"a\";")
        "option (dmxp_channels) = \"b\";").current_service = some s' ∧
      s'.dmxp_options = some o ∧ o.channels = ["a", "b"] :=
  ⟨rfl,
    service_channels_accumulate_in_order (start_service newBuilder "S")
      { name := "S", methods := [], options := [], dmxp_options := none }
      "option (dmxp_channels) = \"a\";" "option (dmxp_channels) = \"b\";"
      "a" "b" rfl rfl rfl rfl rfl rfl rfl rfl rfl rfl⟩

/-- C10: message-level option dispatch matches keys by substring
containment, so the service-spelling line `option (dmxp_channels) = "x";`
— whose text contains the message-level key `dmxp_channel` — sets the
current message's channel binding to `x` instead of being ignored. -/
theorem message_option_substring_dispatch (b : AstBuilder) (m : Message)
    (hcm : b.current_message = some m) :
    ∃ m' o,
      (parse_message_option b "option (dmxp_channels) = \"x\";").current_message = some m' ∧
      m'.dmxp_options = some o ∧ o.channel = some "x" := by
  have h1 : containsSub (trimStr "option (dmxp_channels) = \"x\";") "dmxp_" = true := rfl
  have h2 : containsSub (trimStr "option (dmxp_channels) = \"x\";") "dmxp_channel" = true := rfl
  have h3 : extract_string_value (trimStr "option (dmxp_channels) = \"x\";")
      "dmxp_channel" = some "x" := rfl
  simp only [parse_message_option, h1, h2, h3, if_true]
  cases hdm : m.dmxp_options with
  | none =>
    simp only [get_dmxp_message_options, set_dmxp_message_options, hcm, hdm,
      Option.some_bind]
    exact ⟨_, _, rfl, rfl, rfl⟩
  | some o =>
    simp only [get_dmxp_message_options, set_dmxp_message_options, hcm, hdm,
      Option.some_bind]
    exact ⟨_, _, rfl, rfl, rfl⟩

/-- C10 witness: the substring-dispatch theorem applied to a freshly
opened message. -/
theorem message_option_substring_dispatch_witness :
    (start_message newBuilder "N").current_message = some (Message.mk "N" [] [] [] [] none) ∧
    ∃ m' o,
      (parse_message_option (start_message newBuilder "N")
        "option (dmxp_channels) = \"x\";").current_message = some m' ∧
      m'.dmxp_options = some o ∧ o.channel = some "x" :=
  ⟨rfl,
    message_option_substring_dispatch (start_message newBuilder "N")
      (Message.mk "N" [] [] [] [] none) rfl⟩

end Proto

namespace Proto

/-! ## C8: enum-value line handling -/

/-- Splitting a character list on a predicate always yields at least
one piece. -/
theorem splitOnPred_ne_nil (p : Char → Bool) (l : List Char) :
    splitOnPred p l ≠ [] := by
  cases l with
  | nil => simp [splitOnPred]
  | cons c cs =>
    simp only [splitOnPred]
    by_cases hc : p c
    · simp [hc]
    · simp only [hc, if_false]
      cases hsp : splitOnPred p cs with
      | nil => simp
      | cons t ts => simp

/-- Splitting on a predicate yields one more piece than there are
separator characters. -/
theorem splitOnPred_length (p : Char → Bool) (l : List Char) :
    (splitOnPred p l).length = l.countP p + 1 := by
  induction l with
  | nil => simp [splitOnPred]
  | cons c cs ih =>
    by_cases hc : p c
    · simp [splitOnPred, hc, List.countP_cons, ih]
    · cases hsp : splitOnPred p cs with
      | nil => exact absurd hsp (splitOnPred_ne_nil p cs)
      | cons t ts =>
        rw [hsp] at ih
        simp only [splitOnPred, hc, if_false, hsp, List.length_cons, List.countP_cons] at ih ⊢
        simp [hc]
        omega

/-- Spec-side enum-value handling, following the amended claim's words:
a dispatched enum-body line is treated as `NAME = number;` only when
splitting it on `=` yields exactly two pieces (exactly one `=`); then
the name is the trimmed left piece and the number is the right piece
with a trailing `;` stripped, trimmed, and parsed as `i32` — a failed
parse is a fatal error.  A line whose split yields any other number of
pieces records nothing and raises nothing. -/
def enum_value_line_spec (rawLine : String) : Except String (Option EnumValue) :=
  let line := trimStr rawLine
  match splitCharStr line '=' with
  | [lhs, rhs] =>
    let name := trimStr lhs
    let numStr := trimStr (trimEndMatchesChar rhs ';')
    match parseI32 numStr with
    | some n => Except.ok (some { name := name, number := n, options := [] })
    | none => Except.error "invalid digit found in string"
  | _ => Except.ok none

/-- C8 amended: `parse_enum_value` realises the amended spec — it acts
as `NAME = number` (recording the value, fatally erring on a failed
integer parse) exactly on lines with a single `=` (two split pieces,
which the second conjunct identifies with an `=`-count of one), and
silently ignores all other dispatched lines. -/
theorem enum_value_line_amended_spec (b : AstBuilder) (rawLine : String) :
    (parse_enum_value b rawLine =
      match enum_value_line_spec rawLine with
      | .ok none => .ok b
      | .ok (some v) => .ok (add_enum_value b v)
      | .error e => .error e) ∧
    ((splitCharStr (trimStr rawLine) '=').length = 2 ↔
      countChar (trimStr rawLine) '=' = 1) := by
  constructor
  · unfold parse_enum_value enum_value_line_spec
    rcases hp : splitCharStr (trimStr rawLine) '=' with _ | ⟨a, _ | ⟨c, _ | ⟨d, rest⟩⟩⟩
    · simp [hp]
    · simp [hp]
    · simp only [hp, List.length_cons, List.length_nil]
      simp only [List.getD, List.getElem?_cons_zero, List.getElem?_cons_succ, Option.getD_some]
      cases hn : parseI32 (trimStr (trimEndMatchesChar c ';')) with
      | none => simp [hn]
      | some n => simp [hn]
    · simp [hp]
  · have h1 : (splitCharStr (trimStr rawLine) '=').length
        = ((trimStr rawLine).toList.countP (fun d => decide (d = '='))) + 1 := by
      unfold splitCharStr
      rw [List.length_map, splitOnPred_length]
    have h2 : countChar (trimStr rawLine) '=' =
        (trimStr rawLine).toList.countP (fun d => decide (d = '=')) := rfl
    rw [h1, h2]
    omega

end Proto

namespace Proto

/-! ## C2: unterminated blocks -/

/-- When no line of the input contains a closing brace, a message-body
parse can never complete: it either propagates an inner error or hits
end-of-input and fails with the unterminated-block error.  (Stated for
every fuel; at fuel zero the model's fuel error is also an error.) -/
theorem parse_message_body_eof_err :
    ∀ fuel (lines : List String), (∀ l ∈ lines, containsChar l '}' = false) →
    ∀ idx b, ∃ e, parse_message_body fuel lines idx b = Except.error e := by
  intro fuel
  induction fuel using Nat.strong_induction_on with
  | _ fuel IH =>
    intro lines hnb idx b
    cases fuel with
    | zero => exact ⟨_, rfl⟩
    | succ f =>
      have hIH : ∀ g, g < f + 1 → ∀ idx b,
          ∃ e, parse_message_body g lines idx b = Except.error e :=
        fun g hg => IH g hg lines hnb
      simp only [parse_message_body]
      split
      case isFalse => exact ⟨_, rfl⟩
      case isTrue h =>
        split
        case isTrue => exact hIH f (by omega) _ _
        case isFalse hne =>
          split
          case isTrue heq =>
            exfalso
            have hmem : lines.get ⟨idx, h⟩ ∈ lines := lines.get_mem _ _
            have := trim_eq_brace_contains _ heq
            rw [hnb _ hmem] at this
            exact Bool.noConfusion this
          case isFalse hnbrace =>
            split
            case isTrue hmsg =>
              cases f with
              | zero => exact ⟨_, rfl⟩
              | succ g =>
                rw [parse_message]
                cases hname : (stripPre (trimStr (lines.getD idx "")) "message ").bind
                    (fun s => (splitWhitespaceStr s).head?) with
                | none =>
                  obtain ⟨e, he⟩ := hIH (g+1) (by omega) (idx+1) b
                  exact ⟨e, by simp only [he]⟩
                | some tok =>
                  obtain ⟨e, he⟩ := hIH g (by omega) (idx+1)
                    (start_message b (trimEndMatchesChar tok '{'))
                  exact ⟨e, by simp only [he]⟩
            case isFalse =>
              split
              case isTrue henumkw =>
                cases henum : parse_enum f lines idx b with
                | error e => exact ⟨e, rfl⟩
                | ok p =>
                  obtain ⟨pb, pidx⟩ := p
                  exact hIH f (by omega) _ _
              case isFalse =>
                split
                case isTrue => exact hIH f (by omega) _ _
                case isFalse =>
                  split
                  case isTrue hfield =>
                    cases hf : parse_field b (lines.get ⟨idx, h⟩) with
                    | error e => exact ⟨e, rfl⟩
                    | ok b' => exact hIH f (by omega) _ _
                  case isFalse => exact hIH f (by omega) _ _

/-- C2 amended: a schema whose first line opens a message and which
never closes a brace — so that the message body (and every construct
inside it) reaches end-of-input before its closing delimiter — makes
the top-level parse return a fatal error, with no AST.  (The companion
counterexample shows the original claim's service/enum cases fail:
their body loops stop silently at end-of-input.) -/
theorem unterminated_message_body_fatal (lines : List String)
    (hmsg : startsWithStr (trimStr (lines.headD "")) "message " = true)
    (hname : ((stripPre (trimStr (lines.headD "")) "message ").bind
        (fun s => (splitWhitespaceStr s).head?)).isSome = true)
    (hnb : ∀ l ∈ lines, containsChar l '}' = false) :
    ∃ e, parseProtoFile lines = Except.error e := by
  cases lines with
  | nil => exact absurd hmsg (by decide)
  | cons l0 rest =>
    have hh : (l0 :: rest).headD "" = l0 := rfl
    rw [hh] at hmsg hname
    have hlen : 0 < (l0 :: rest).length := by simp
    suffices hs : ∃ e, parse_loop (4 * (l0 :: rest).length + 7 + 1) (l0 :: rest) 0
        newBuilder = Except.error e by
      obtain ⟨e, he⟩ := hs
      refine ⟨e, ?_⟩
      unfold parseProtoFile parseFuel
      rw [(by omega : 4 * (l0 :: rest).length + 8 = 4 * (l0 :: rest).length + 7 + 1), he]
    rw [parse_loop]
    split
    case isFalse hcon => exact absurd hlen hcon
    case isTrue h0 =>
      have hget : (l0 :: rest).get ⟨0, h0⟩ = l0 := rfl
      rw [hget]
      rw [if_neg (startsWith_message_ne_empty _ hmsg)]
      rw [if_neg (by rw [startsWith_message_not_syntaxKw _ hmsg]; exact Bool.false_ne_true)]
      rw [if_neg (by rw [startsWith_message_not_packageKw _ hmsg]; exact Bool.false_ne_true)]
      rw [if_pos hmsg]
      rw [(by omega : 4 * (l0 :: rest).length + 7 = 4 * (l0 :: rest).length + 6 + 1)]
      rw [parse_message]
      simp only [List.getD_cons_zero]
      obtain ⟨tok, htok⟩ := Option.isSome_iff_exists.mp hname
      rw [htok]
      obtain ⟨e, he⟩ := parse_message_body_eof_err (4 * (l0 :: rest).length + 6)
        (l0 :: rest) hnb 1 (start_message newBuilder (trimEndMatchesChar tok '{'))
      exact ⟨e, by simp only [he]⟩

/-- C2 amended, witness: the unterminated-message theorem applied to
the concrete schema `message M {` followed by a field line and no
closing brace. -/
theorem unterminated_message_body_fatal_witness :
    startsWithStr (trimStr (["message M \x7b", "int32 x = 1;"].headD "")) "message " = true ∧
    ((stripPre (trimStr (["message M \x7b", "int32 x = 1;"].headD "")) "message ").bind
        (fun s => (splitWhitespaceStr s).head?)).isSome = true ∧
    (∀ l ∈ ["message M \x7b", "int32 x = 1;"], containsChar l '}' = false) ∧
    ∃ e, parseProtoFile ["message M \x7b", "int32 x = 1;"] = Except.error e :=
  ⟨rfl, rfl, by decide,
    unterminated_message_body_fatal ["message M \x7b", "int32 x = 1;"] rfl rfl (by decide)⟩

end Proto

namespace Proto

/-! ## C4: field-number range invariant

`parse_field` obtains every field number from `str::parse::<i32>`, so
every field that ever enters the builder carries an `i32`-ranged
number.  The invariant below is threaded through every parser loop.
Because the nested-message branches of `start_message`/`end_message`
are dead (see C1), every message in the builder also has an empty
`nested_messages` list, which the invariant records as well. -/

/-- The field number lies in the `i32` range. -/
def FieldInRange (f : Field) : Prop := -(2^31) ≤ f.number ∧ f.number < 2^31

/-- All of a message's own fields are in range, and it has no nested
messages (the parser never produces any — the nesting branches are
dead code). -/
def MsgFlatOk (m : Message) : Prop :=
  (∀ f ∈ m.fields, FieldInRange f) ∧ m.nested_messages = []

/-- Builder invariant: every committed and in-progress message is
flat-Ok. -/
def BuilderOk (b : AstBuilder) : Prop :=
  (∀ m ∈ b.current_file.messages, MsgFlatOk m) ∧
  (∀ m, b.current_message = some m → MsgFlatOk m)

/-- `str::parse::<i32>` only produces values in the `i32` range. -/
theorem parseI32_range (s : String) (n : Int) (h : parseI32 s = some n) :
    -(2^31) ≤ n ∧ n < 2^31 := by
  unfold parseI32 at h
  split at h
  case h_1 x ds heq =>
    cases hd : digitsVal ds with
    | none => rw [hd] at h; simp at h
    | some k =>
      rw [hd] at h
      simp only [Option.some_bind] at h
      split at h
      case isTrue hle =>
        obtain rfl : (k : Int) = n := by simpa using h
        have h0 : (0:Int) ≤ (k:Int) := Int.ofNat_nonneg k
        norm_num at hle ⊢
        omega
      case isFalse => simp at h
  case h_2 x ds heq =>
    cases hd : digitsVal ds with
    | none => rw [hd] at h; simp at h
    | some k =>
      rw [hd] at h
      simp only [Option.some_bind] at h
      split at h
      case isTrue hle =>
        obtain rfl : -(k : Int) = n := by simpa using h
        have h0 : (0:Int) ≤ (k:Int) := Int.ofNat_nonneg k
        norm_num at hle ⊢
        omega
      case isFalse => simp at h
  case h_3 x hn1 hn2 =>
    cases hd : digitsVal s.toList with
    | none => rw [hd] at h; simp at h
    | some k =>
      rw [hd] at h
      simp only [Option.some_bind] at h
      split at h
      case isTrue hle =>
        obtain rfl : (k : Int) = n := by simpa using h
        have h0 : (0:Int) ≤ (k:Int) := Int.ofNat_nonneg k
        norm_num at hle ⊢
        omega
      case isFalse => simp at h

theorem builderOk_start_message (b : AstBuilder) (nm : String)
    (hb : BuilderOk b) : BuilderOk (start_message b nm) := by
  obtain ⟨hfile, hcur⟩ := hb
  unfold start_message
  cases hcm : b.current_message with
  | none =>
    refine ⟨by simpa using hfile, ?_⟩
    intro m hm
    simp only [Option.some.injEq] at hm
    subst hm
    exact ⟨by simp [Message.fields], by simp [Message.nested_messages]⟩
  | some cur =>
    constructor
    · intro m hm
      simp only [List.mem_append, List.mem_singleton] at hm
      rcases hm with hm | rfl
      · exact hfile m hm
      · exact hcur _ hcm
    · intro m hm
      simp only [Option.some.injEq] at hm
      subst hm
      exact ⟨by simp [Message.fields], by simp [Message.nested_messages]⟩

end Proto

namespace Proto

theorem builderOk_end_message (b : AstBuilder)
    (hb : BuilderOk b) : BuilderOk (end_message b) := by
  obtain ⟨hfile, hcur⟩ := hb
  unfold end_message
  cases hcm : b.current_message with
  | none => exact ⟨by simpa using hfile, by simp⟩
  | some cur =>
    constructor
    · intro m hm
      simp only [List.mem_append, List.mem_singleton] at hm
      rcases hm with hm | rfl
      · exact hfile m hm
      · exact hcur _ hcm
    · intro m hm
      simp at hm

theorem builderOk_add_field (b : AstBuilder) (f : Field)
    (hf : FieldInRange f) (hb : BuilderOk b) : BuilderOk (add_field b f) := by
  obtain ⟨hfile, hcur⟩ := hb
  unfold add_field
  cases hcm : b.current_message with
  | none => exact ⟨hfile, hcur⟩
  | some cur =>
    refine ⟨by simpa using hfile, ?_⟩
    intro m hm
    simp only [Option.some.injEq] at hm
    subst hm
    obtain ⟨hcf, hcn⟩ := hcur _ hcm
    constructor
    · intro g hg
      simp only [Message.fields] at hg
      rw [List.mem_append] at hg
      rcases hg with hg | hg
      · exact hcf g hg
      · rw [List.mem_singleton] at hg
        subst hg
        exact hf
    · simpa [Message.nested_messages] using hcn

theorem builderOk_set_dmxp_message_options (b : AstBuilder) (o : DmxpMessageOptions)
    (hb : BuilderOk b) : BuilderOk (set_dmxp_message_options b o) := by
  obtain ⟨hfile, hcur⟩ := hb
  unfold set_dmxp_message_options
  cases hcm : b.current_message with
  | none => exact ⟨hfile, hcur⟩
  | some cur =>
    refine ⟨by simpa using hfile, ?_⟩
    intro m hm
    simp only [Option.some.injEq] at hm
    subst hm
    obtain ⟨hcf, hcn⟩ := hcur _ hcm
    exact ⟨by simpa [Message.fields] using hcf,
      by simpa [Message.nested_messages] using hcn⟩

theorem builderOk_start_enum (b : AstBuilder) (nm : String)
    (hb : BuilderOk b) : BuilderOk (start_enum b nm) := by
  obtain ⟨hfile, hcur⟩ := hb
  unfold start_enum
  cases hce : b.current_enum with
  | none => exact ⟨by simpa using hfile, by simpa using hcur⟩
  | some cur =>
    cases hcm : b.current_message with
    | none => exact ⟨by simpa using hfile, by simpa using hcur⟩
    | some m0 =>
      refine ⟨by simpa using hfile, ?_⟩
      intro m hm
      simp only [Option.some.injEq] at hm
      subst hm
      obtain ⟨hcf, hcn⟩ := hcur _ hcm
      exact ⟨by simpa [Message.fields] using hcf,
        by simpa [Message.nested_messages] using hcn⟩

theorem builderOk_end_enum (b : AstBuilder)
    (hb : BuilderOk b) : BuilderOk (end_enum b) := by
  obtain ⟨hfile, hcur⟩ := hb
  unfold end_enum
  cases hce : b.current_enum with
  | none => exact ⟨hfile, hcur⟩
  | some cur =>
    cases hcm : b.current_message with
    | none => exact ⟨by simpa using hfile, by simpa using hcur⟩
    | some m0 =>
      refine ⟨by simpa using hfile, ?_⟩
      intro m hm
      simp only [Option.some.injEq] at hm
      subst hm
      obtain ⟨hcf, hcn⟩ := hcur _ hcm
      exact ⟨by simpa [Message.fields] using hcf,
        by simpa [Message.nested_messages] using hcn⟩

theorem builderOk_start_service (b : AstBuilder) (nm : String)
    (hb : BuilderOk b) : BuilderOk (start_service b nm) := by
  obtain ⟨hfile, hcur⟩ := hb
  exact ⟨by simpa [start_service] using hfile, by simpa [start_service] using hcur⟩

theorem builderOk_end_service (b : AstBuilder)
    (hb : BuilderOk b) : BuilderOk (end_service b) := by
  obtain ⟨hfile, hcur⟩ := hb
  unfold end_service
  cases hcs : b.current_service with
  | none => exact ⟨hfile, hcur⟩
  | some s => exact ⟨by simpa using hfile, by simpa using hcur⟩

theorem builderOk_add_method (b : AstBuilder) (mth : Method)
    (hb : BuilderOk b) : BuilderOk (add_method b mth) := by
  obtain ⟨hfile, hcur⟩ := hb
  unfold add_method
  cases hcs : b.current_service with
  | none => exact ⟨hfile, hcur⟩
  | some s => exact ⟨by simpa using hfile, by simpa using hcur⟩

theorem builderOk_set_dmxp_service_options (b : AstBuilder) (o : DmxpServiceOptions)
    (hb : BuilderOk b) : BuilderOk (set_dmxp_service_options b o) := by
  obtain ⟨hfile, hcur⟩ := hb
  unfold set_dmxp_service_options
  cases hcs : b.current_service with
  | none => exact ⟨hfile, hcur⟩
  | some s => exact ⟨by simpa using hfile, by simpa using hcur⟩

theorem builderOk_add_enum_value (b : AstBuilder) (v : EnumValue)
    (hb : BuilderOk b) : BuilderOk (add_enum_value b v) := by
  obtain ⟨hfile, hcur⟩ := hb
  unfold add_enum_value
  cases hce : b.current_enum with
  | none => exact ⟨hfile, hcur⟩
  | some e => exact ⟨by simpa using hfile, by simpa using hcur⟩

theorem builderOk_setSyntaxLabel (b : AstBuilder) (s : String)
    (hb : BuilderOk b) : BuilderOk (setSyntaxLabel b s) := by
  obtain ⟨hfile, hcur⟩ := hb
  exact ⟨by simpa [setSyntaxLabel] using hfile, by simpa [setSyntaxLabel] using hcur⟩

theorem builderOk_set_package (b : AstBuilder) (s : String)
    (hb : BuilderOk b) : BuilderOk (set_package b s) := by
  obtain ⟨hfile, hcur⟩ := hb
  exact ⟨by simpa [set_package] using hfile, by simpa [set_package] using hcur⟩

end Proto

namespace Proto

end Proto

namespace Proto

theorem builderOk_parse_syntax_line (b : AstBuilder) (l : String)
    (hb : BuilderOk b) : BuilderOk (parse_syntax_line b l) := by
  simp only [parse_syntax_line]
  split
  · split
    · exact builderOk_setSyntaxLabel _ _ hb
    · exact hb
  · exact hb

theorem builderOk_parse_package (b : AstBuilder) (l : String)
    (hb : BuilderOk b) : BuilderOk (parse_package b l) := by
  simp only [parse_package]
  split
  · exact builderOk_set_package _ _ hb
  · exact hb

theorem builderOk_parse_message_option (b : AstBuilder) (l : String)
    (hb : BuilderOk b) : BuilderOk (parse_message_option b l) := by
  simp only [parse_message_option]
  split
  · exact builderOk_set_dmxp_message_options _ _ hb
  · exact hb

/-- The `dmxp_channels` block of `parse_service_option`
(proof-local decomposition; `parse_service_option` is the model). -/
def svcOptStep1 (l : String) (b : AstBuilder) : AstBuilder :=
  if containsSub (trimStr l) "dmxp_channels" then
    match extract_string_value (trimStr l) "dmxp_channels" with
    | some channel_name =>
      let existing :=
        match b.current_service.bind (fun s => s.dmxp_options) with
        | some o => o
        | none => emptyServiceOptions
      set_dmxp_service_options b
        { existing with channels := existing.channels ++ [channel_name] }
    | none => b
  else b

/-- The `dmxp_timeout_ms` block of `parse_service_option`. -/
def svcOptStep2 (l : String) (b : AstBuilder) : AstBuilder :=
  if containsSub (trimStr l) "dmxp_timeout_ms" then
    match extract_string_value (trimStr l) "dmxp_timeout_ms" with
    | some timeout_str =>
      match parseU32 timeout_str with
      | some timeout_ms =>
        let existing :=
          match b.current_service.bind (fun s => s.dmxp_options) with
          | some o => o
          | none => emptyServiceOptions
        set_dmxp_service_options b { existing with timeout_ms := some timeout_ms }
      | none => b
    | none => b
  else b

/-- The `dmxp_retry_count` block of `parse_service_option`. -/
def svcOptStep3 (l : String) (b : AstBuilder) : AstBuilder :=
  if containsSub (trimStr l) "dmxp_retry_count" then
    match extract_string_value (trimStr l) "dmxp_retry_count" with
    | some retry_str =>
      match parseU32 retry_str with
      | some retry_count =>
        let existing :=
          match b.current_service.bind (fun s => s.dmxp_options) with
          | some o => o
          | none => emptyServiceOptions
        set_dmxp_service_options b { existing with retry_count := some retry_count }
      | none => b
    | none => b
  else b

theorem parse_service_option_decompose (b : AstBuilder) (l : String) :
    parse_service_option b l = svcOptStep3 l (svcOptStep2 l (svcOptStep1 l b)) := rfl

theorem builderOk_svcOptStep1 (l : String) (b : AstBuilder)
    (hb : BuilderOk b) : BuilderOk (svcOptStep1 l b) := by
  simp only [svcOptStep1]
  split
  · split
    · exact builderOk_set_dmxp_service_options _ _ hb
    · exact hb
  · exact hb

theorem builderOk_svcOptStep2 (l : String) (b : AstBuilder)
    (hb : BuilderOk b) : BuilderOk (svcOptStep2 l b) := by
  simp only [svcOptStep2]
  split
  · split
    · split
      · exact builderOk_set_dmxp_service_options _ _ hb
      · exact hb
    · exact hb
  · exact hb

theorem builderOk_svcOptStep3 (l : String) (b : AstBuilder)
    (hb : BuilderOk b) : BuilderOk (svcOptStep3 l b) := by
  simp only [svcOptStep3]
  split
  · split
    · split
      · exact builderOk_set_dmxp_service_options _ _ hb
      · exact hb
    · exact hb
  · exact hb

theorem builderOk_parse_service_option (b : AstBuilder) (l : String)
    (hb : BuilderOk b) : BuilderOk (parse_service_option b l) := by
  rw [parse_service_option_decompose]
  exact builderOk_svcOptStep3 _ _ (builderOk_svcOptStep2 _ _ (builderOk_svcOptStep1 _ _ hb))

end Proto

namespace Proto

theorem builderOk_parse_field (b b' : AstBuilder) (l : String)
    (h : parse_field b l = Except.ok b') (hb : BuilderOk b) : BuilderOk b' := by
  simp only [parse_field] at h
  split at h
  · exact (Except.ok.injEq _ _).mp h ▸ hb
  · by_cases hrep : (splitWhitespaceStr (trimStr l)).getD 0 "" = "repeated"
    · rw [if_pos hrep] at h
      by_cases hlen : (splitWhitespaceStr (trimStr l)).length < 5
      · rw [if_pos hlen] at h
        simp at h
      · rw [if_neg hlen] at h
        simp only [Except.ok.injEq] at h
        split at h
        · simp at h
        · split at h
          · simp at h
          · rename_i number hnum
            obtain rfl := (Except.ok.injEq _ _).mp h
            exact builderOk_add_field b _ (parseI32_range _ _ hnum) hb
    · rw [if_neg hrep] at h
      by_cases hlen : (splitWhitespaceStr (trimStr l)).length < 4
      · rw [if_pos hlen] at h
        simp at h
      · rw [if_neg hlen] at h
        simp only [Except.ok.injEq] at h
        split at h
        · simp at h
        · split at h
          · simp at h
          · rename_i number hnum
            obtain rfl := (Except.ok.injEq _ _).mp h
            exact builderOk_add_field b _ (parseI32_range _ _ hnum) hb

end Proto

namespace Proto

theorem builderOk_parse_method (b b' : AstBuilder) (l : String)
    (h : parse_method b l = Except.ok b') (hb : BuilderOk b) : BuilderOk b' := by
  simp only [parse_method] at h
  split at h
  · exact (Except.ok.injEq _ _).mp h ▸ hb
  · split at h
    · obtain rfl := (Except.ok.injEq _ _).mp h
      exact builderOk_add_method _ _ hb
    · exact Except.noConfusion h

theorem builderOk_parse_enum_value (b b' : AstBuilder) (l : String)
    (h : parse_enum_value b l = Except.ok b') (hb : BuilderOk b) : BuilderOk b' := by
  simp only [parse_enum_value] at h
  split at h
  · split at h
    · exact Except.noConfusion h
    · obtain rfl := (Except.ok.injEq _ _).mp h
      exact builderOk_add_enum_value _ _ hb
  · exact (Except.ok.injEq _ _).mp h ▸ hb

end Proto

namespace Proto

/-- Invariant on a `parse_loop` result. -/
def POk : Except String AstBuilder → Prop
  | .ok b => BuilderOk b
  | .error _ => True

/-- Invariant on a loop result carrying the cursor. -/
def PPOk : Except String (AstBuilder × Nat) → Prop
  | .ok p => BuilderOk p.1
  | .error _ => True

set_option maxHeartbeats 1600000 in
/-- Every parser loop preserves the builder invariant, at every
fuel. -/
theorem loops_preserve : ∀ fuel : Nat,
    (∀ lines idx b, BuilderOk b → POk (parse_loop fuel lines idx b)) ∧
    (∀ lines idx b, BuilderOk b → PPOk (parse_message fuel lines idx b)) ∧
    (∀ lines idx b, BuilderOk b → PPOk (parse_message_body fuel lines idx b)) ∧
    (∀ lines idx b, BuilderOk b → PPOk (parse_service fuel lines idx b)) ∧
    (∀ lines idx brace b, BuilderOk b → PPOk (parse_service_body fuel lines idx brace b)) ∧
    (∀ lines idx b, BuilderOk b → PPOk (parse_enum fuel lines idx b)) ∧
    (∀ lines idx brace b, BuilderOk b → PPOk (parse_enum_body fuel lines idx brace b)) := by
  intro fuel
  induction fuel with
  | zero =>
    exact ⟨fun _ _ _ _ => trivial, fun _ _ _ _ => trivial, fun _ _ _ _ => trivial,
      fun _ _ _ _ => trivial, fun _ _ _ _ _ => trivial, fun _ _ _ _ => trivial,
      fun _ _ _ _ _ => trivial⟩
  | succ f IH =>
    obtain ⟨ih1, ih2, ih3, ih4, ih5, ih6, ih7⟩ := IH
    refine ⟨?_, ?_, ?_, ?_, ?_, ?_, ?_⟩
    -- parse_loop
    · intro lines idx b hb
      simp only [parse_loop]
      repeat' split
      all_goals first
        | exact trivial
        | exact hb
        | exact ih1 _ _ _ hb
        | exact ih1 _ _ _ (builderOk_parse_syntax_line _ _ hb)
        | exact ih1 _ _ _ (builderOk_parse_package _ _ hb)
        | (rename_i b1 i1 hc
           first
             | (have hp := ih2 lines idx b hb
                rw [hc] at hp
                simp only [PPOk] at hp
                exact ih1 _ _ _ hp)
             | (have hp := ih4 lines idx b hb
                rw [hc] at hp
                simp only [PPOk] at hp
                exact ih1 _ _ _ hp)
             | (have hp := ih6 lines idx b hb
                rw [hc] at hp
                simp only [PPOk] at hp
                exact ih1 _ _ _ hp))
    -- parse_message
    · intro lines idx b hb
      cases hname : (stripPre (trimStr (lines.getD idx "")) "message ").bind
          (fun s => (splitWhitespaceStr s).head?) with
      | none => simp only [parse_message, hname]; exact hb
      | some tok =>
        simp only [parse_message, hname]
        cases hc : parse_message_body f lines (idx+1)
            (start_message b (trimEndMatchesChar tok '{')) with
        | error e => exact trivial
        | ok p =>
          obtain ⟨b1, i1⟩ := p
          have hp := ih3 lines (idx+1) (start_message b (trimEndMatchesChar tok '{'))
            (builderOk_start_message _ _ hb)
          rw [hc] at hp
          simp only [PPOk] at hp
          exact builderOk_end_message _ hp
    -- parse_message_body
    · intro lines idx b hb
      simp only [parse_message_body]
      repeat' split
      all_goals first
        | exact trivial
        | exact hb
        | exact ih3 _ _ _ hb
        | exact ih3 _ _ _ (builderOk_parse_message_option _ _ hb)
        | (rename_i b1 hc
           exact ih3 _ _ _ (builderOk_parse_field _ _ _ hc hb))
        | (rename_i b1 i1 hc
           first
             | (have hp := ih2 lines idx b hb
                rw [hc] at hp
                simp only [PPOk] at hp
                exact ih3 _ _ _ hp)
             | (have hp := ih6 lines idx b hb
                rw [hc] at hp
                simp only [PPOk] at hp
                exact ih3 _ _ _ hp))
    -- parse_service
    · intro lines idx b hb
      cases hname : (stripPre (trimStr (lines.getD idx "")) "service ").bind
          (fun s => (splitWhitespaceStr s).head?) with
      | none => simp only [parse_service, hname]; exact hb
      | some tok =>
        simp only [parse_service, hname]
        cases hc : parse_service_body f lines (idx+1) 1
            (start_service b (trimEndMatchesChar tok '{')) with
        | error e => exact trivial
        | ok p =>
          obtain ⟨b1, i1⟩ := p
          have hp := ih5 lines (idx+1) 1 (start_service b (trimEndMatchesChar tok '{'))
            (builderOk_start_service _ _ hb)
          rw [hc] at hp
          simp only [PPOk] at hp
          exact builderOk_end_service _ hp
    -- parse_service_body
    · intro lines idx brace b hb
      simp only [parse_service_body]
      repeat' split
      all_goals first
        | exact trivial
        | exact hb
        | exact ih5 _ _ _ _ hb
        | exact ih5 _ _ _ _ (builderOk_parse_service_option _ _ hb)
        | (rename_i b1 hc
           exact ih5 _ _ _ _ (builderOk_parse_method _ _ _ hc hb))
    -- parse_enum
    · intro lines idx b hb
      cases hname : (stripPre (trimStr (lines.getD idx "")) "enum ").bind
          (fun s => (splitWhitespaceStr s).head?) with
      | none => simp only [parse_enum, hname]; exact hb
      | some tok =>
        simp only [parse_enum, hname]
        cases hc : parse_enum_body f lines (idx+1) 1
            (start_enum b (trimEndMatchesChar tok '{')) with
        | error e => exact trivial
        | ok p =>
          obtain ⟨b1, i1⟩ := p
          have hp := ih7 lines (idx+1) 1 (start_enum b (trimEndMatchesChar tok '{'))
            (builderOk_start_enum _ _ hb)
          rw [hc] at hp
          simp only [PPOk] at hp
          exact builderOk_end_enum _ hp
    -- parse_enum_body
    · intro lines idx brace b hb
      simp only [parse_enum_body]
      repeat' split
      all_goals first
        | exact trivial
        | exact hb
        | exact ih7 _ _ _ _ hb
        | (rename_i b1 hc
           exact ih7 _ _ _ _ (builderOk_parse_enum_value _ _ _ hc hb))

end Proto

namespace Proto

theorem builderOk_newBuilder : BuilderOk newBuilder := by
  constructor
  · intro m hm
    simp [newBuilder] at hm
  · intro m hm
    simp [newBuilder] at hm

theorem msgFlatOk_allFields (m : Message) (hm : MsgFlatOk m) :
    ∀ f ∈ m.allFields, FieldInRange f := by
  obtain ⟨hf, hn⟩ := hm
  intro f hmem
  cases m with
  | mk nm fs nested nenums opts dopts =>
    simp only [Message.nested_messages] at hn
    subst hn
    simp only [Message.allFields, allFieldsList, List.append_nil] at hmem
    exact hf f (by simpa [Message.fields] using hmem)

/-- C4 amended: in every successfully parsed file, every field
reachable through the messages (own fields and nested ones at any
depth) has a field number in the `i32` range; positivity is NOT
enforced (the companion counterexample parses field number `0`). -/
theorem parsed_field_numbers_in_i32_range (lines : List String) (pf : ProtoFile)
    (hok : parseProtoFile lines = Except.ok pf) :
    ∀ m ∈ pf.messages, ∀ f ∈ m.allFields, -(2^31) ≤ f.number ∧ f.number < 2^31 := by
  unfold parseProtoFile at hok
  cases hpl : parse_loop (parseFuel lines) lines 0 newBuilder with
  | error e => rw [hpl] at hok; exact Except.noConfusion hok
  | ok b =>
    rw [hpl] at hok
    obtain rfl : build b = pf := (Except.ok.injEq _ _).mp hok
    have hp := (loops_preserve (parseFuel lines)).1 lines 0 newBuilder builderOk_newBuilder
    rw [hpl] at hp
    simp only [POk] at hp
    intro m hm f hf
    exact msgFlatOk_allFields m (hp.1 m hm) f hf

/-- C4 amended, witness: the range theorem applied to a concrete
one-field schema whose field number is 7. -/
theorem parsed_field_numbers_in_i32_range_witness :
    parseProtoFile ["message M \x7b", "int32 x = 7;", "\x7d"] =
      Except.ok
        { syntaxLabel := "proto3", package := "", options := [],
          messages := [Message.mk "M"
            [{ name := "x", field_type := FieldType.int32, number := 7,
               label := FieldLabel.optional, options := [],
               default_value := none }] [] [] [] none],
          services := [], enums := [], extensions := [],
          dmxp_channels := [] } ∧
    (-(2^31) ≤ (7:Int) ∧ (7:Int) < 2^31) :=
  ⟨rfl,
    parsed_field_numbers_in_i32_range ["message M \x7b", "int32 x = 7;", "\x7d"] _ rfl
      (Message.mk "M"
        [{ name := "x", field_type := FieldType.int32, number := 7,
           label := FieldLabel.optional, options := [],
           default_value := none }] [] [] [] none)
      (List.mem_singleton.mpr rfl)
      { name := "x", field_type := FieldType.int32, number := 7,
        label := FieldLabel.optional, options := [], default_value := none }
      (List.mem_singleton.mpr rfl)⟩

end Proto
